import Mathlib

/-!
Verification development for the tabular analytics engine of the
Chemical-Equipment-Parameter-Visualizers repository.

The Python sources are shallowly embedded: rows are association lists of
cell values, Python floats are modelled by rationals, fallible operations
return `Except`/`Option`.  Each claim about the specification is stated and
settled as a theorem over these definitions.
-/

namespace CEPV

/-- A raw cell value as produced by the tabular readers. `null` models both
a Python `None` cell and an absent dictionary key default; `num` models a
numeric cell (spreadsheet numbers or already-parsed floats); `str` models a
raw string cell.  The field `p` of `str` abstracts the Python builtin
`float(s)`: `some q` when the string parses to the finite value `q`, and
`none` when `float` raises.  Finite floats are modelled by rationals. -/
inductive Val where
  | null : Val
  | num (q : ℚ) : Val
  | str (s : String) (p : Option ℚ) : Val
deriving DecidableEq

/-- A row record: an association list from column names to cell values
(Python dictionaries preserve insertion order; first binding wins for
lookups, which agrees with dictionaries whose keys are unique). -/
abbrev Row := List (String × Val)

/-- Python `row.get(col)`: the first value bound to `col`, or `None`
(here `Val.null`) when the key is absent. -/
def Row.getv (r : Row) (c : String) : Val :=
  match r.find? (fun p => p.1 == c) with
  | some p => p.2
  | none => Val.null

/-- Python `row.get(col)` distinguishing an absent key (`none`) from a
present value; needed where the code supplies a non-`None` default. -/
def Row.getOpt (r : Row) (c : String) : Option Val :=
  (r.find? (fun p => p.1 == c)).map (fun p => p.2)

/-- Python `v in (None, '')`: true exactly for `None` and the empty
string. -/
def isEmptyVal : Val → Bool
  | Val.null => true
  | Val.num _ => false
  | Val.str s _ => s == ""

/-- Python `s.strip()`: drop leading and trailing whitespace (modelled on
the character list, which the kernel can evaluate). -/
def pyStrip (s : String) : String :=
  ⟨((s.data.dropWhile Char.isWhitespace).reverse.dropWhile
      Char.isWhitespace).reverse⟩

/-- Python `s.lower()`. -/
def pyLower (s : String) : String := ⟨s.data.map Char.toLower⟩

/-- Python `float(v)` as a partial function: `None` cannot be converted,
numbers convert to themselves, and a string converts according to its
parse oracle, except that blank strings always fail (as `float('')` and
`float('  ')` raise in Python). -/
def pyFloat : Val → Option ℚ
  | Val.null => none
  | Val.num q => some q
  | Val.str s p => if pyStrip s = "" then none else p

/-- Python `str(v)`.  `str(None)` is the literal `"None"`; the exact
decimal rendering of a float is abstracted by `toString` on rationals
(no claim depends on numeral formatting). -/
def pystr : Val → String
  | Val.null => "None"
  | Val.num q => toString q
  | Val.str s _ => s

/-- Python `mean(vals)` for a non-empty list of rationals (the sources
never call it on an empty list). -/
def pymean (l : List ℚ) : ℚ := l.sum / l.length

/-- Ascending sort, as Python `sorted` on numbers. -/
def sortAsc (l : List ℚ) : List ℚ := l.insertionSort (fun a b => a ≤ b)

/-- Python `statistics.median`: middle element of the sorted list, or the
average of the two middle elements (the sources never call it on an empty
list). -/
def pymedian (l : List ℚ) : ℚ :=
  let s := sortAsc l
  let n := s.length
  if n % 2 = 1 then s.getD (n / 2) 0
  else (s.getD (n / 2 - 1) 0 + s.getD (n / 2) 0) / 2

/-- Python `min(vals)` for a non-empty list. -/
def pymin (l : List ℚ) : ℚ :=
  match l with
  | [] => 0
  | x :: xs => xs.foldl min x

/-- Python `max(vals)` for a non-empty list. -/
def pymax (l : List ℚ) : ℚ :=
  match l with
  | [] => 0
  | x :: xs => xs.foldl max x

/-! ### `backend/visualizer/utils.py`: schema validation and summary -/

/-- `REQUIRED_COLUMNS` from `utils.py`. -/
def REQUIRED_COLUMNS : List String :=
  ["Equipment Name", "Type", "Flowrate", "Pressure", "Temperature"]

/-- The three base numeric columns checked by the validator. -/
def BASE_NUMERIC : List String := ["Flowrate", "Pressure", "Temperature"]

/-- The `CSVValidationError` raised by `parse_and_validate`, as structured
data: `missing cols` models the message `File must include columns: ...`
(the list it carries is the list of column names the message prints), and
`invalidNumeric col row` models `Invalid numeric in {col} at row {row}`. -/
inductive Err where
  | missing (cols : List String) : Err
  | invalidNumeric (col : String) (row : ℕ) : Err
deriving DecidableEq

/-- The inner loop of the row validator: for each base numeric column in
order, a value that is neither `None` nor `''` must parse as a float,
else `Invalid numeric in {col} at row {idx}` is raised. -/
def checkRowCols : List String → Row → ℕ → Except Err Unit
  | [], _, _ => Except.ok ()
  | b :: rest, r, idx =>
    let v := r.getv b
    if isEmptyVal v then checkRowCols rest r idx
    else
      match pyFloat v with
      | some _ => checkRowCols rest r idx
      | none => Except.error (Err.invalidNumeric b idx)

/-- The outer loop of the row validator, rows numbered from `idx`
(`parse_and_validate` starts at 1). -/
def checkRows : List Row → ℕ → Except Err Unit
  | [], _ => Except.ok ()
  | r :: rest, idx =>
    match checkRowCols BASE_NUMERIC r idx with
    | Except.ok _ => checkRows rest (idx + 1)
    | Except.error e => Except.error e

/-- The values of column `col` across the rows that are neither `None` nor
`''` (the `non_empty` list of the numeric-detection loop). -/
def nonEmptyVals (rows : List Row) (col : String) : List Val :=
  (rows.map (fun r => r.getv col)).filter (fun v => !(isEmptyVal v))

/-- The parsed float values among a list of cells (`parsed_vals`). -/
def parsedOf (vs : List Val) : List ℚ := vs.filterMap pyFloat

/-- The numeric-detection loop of `parse_and_validate`: every header
column except the two categorical anchors is kept, together with its
parsed values, when at least 80% of its non-empty values parse as floats
(and at least one value parsed). -/
def detectNumeric (header : List String) (rows : List Row) :
    List (String × List ℚ) :=
  header.filterMap (fun col =>
    if col = "Type" ∨ col = "Equipment Name" then none
    else if nonEmptyVals rows col = [] then none
    else if (((parsedOf (nonEmptyVals rows col)).length : ℚ)
          / ((nonEmptyVals rows col).length : ℚ) ≥ 4 / 5)
        ∧ parsedOf (nonEmptyVals rows col) ≠ [] then
      some (col, parsedOf (nonEmptyVals rows col))
    else none)

/-- The fallback of `parse_and_validate` when no column cleared the 80%
bar: each base numeric column whose non-empty values all parse (a parse
failure raises inside the comprehension and the column is skipped) is kept
when it has at least one parsed value. -/
def fallbackNumeric (rows : List Row) : List (String × List ℚ) :=
  BASE_NUMERIC.filterMap (fun col =>
    if (nonEmptyVals rows col).all (fun v => (pyFloat v).isSome) then
      if parsedOf (nonEmptyVals rows col) = [] then none
      else some (col, parsedOf (nonEmptyVals rows col))
    else none)

/-- `numeric_cols` as finally used by the summary builder. -/
def numericCols (header : List String) (rows : List Row) :
    List (String × List ℚ) :=
  let d := detectNumeric header rows
  if d = [] then fallbackNumeric rows else d

/-- Python `collections.Counter` update: bump the count of `k`, keeping
first-insertion key order. -/
def bump : List (String × ℕ) → String → List (String × ℕ)
  | [], k => [(k, 1)]
  | (a, n) :: rest, k =>
    if a = k then (a, n + 1) :: rest else (a, n) :: bump rest k

/-- `str(row.get('Type', 'Unknown'))`: the literal `Unknown` only when
the key is absent; a present `None` stringifies to `"None"`. -/
def typeKey (r : Row) : String :=
  match r.getOpt "Type" with
  | some v => pystr v
  | none => "Unknown"

/-- The `Type` frequency counter of `parse_and_validate`. -/
def typeDistribution (rows : List Row) : List (String × ℕ) :=
  rows.foldl (fun acc r => bump acc (typeKey r)) []

/-- The summary dictionary returned by `parse_and_validate` (the preview
CSV string, a plain re-serialization of the first 10 rows, is omitted).
Fields `minv`/`maxv` correspond to the output keys `min`/`max`. -/
structure Summary where
  averages : List (String × ℚ)
  median : List (String × ℚ)
  minv : List (String × ℚ)
  maxv : List (String × ℚ)
  type_distribution : List (String × ℕ)
  row_count : ℕ
  numeric_columns : List String
  all_columns : List String
deriving DecidableEq

/-- The summary construction of `parse_and_validate`, after validation
succeeded.  Python dictionary keys are unique, so `numeric_columns`
(= `list(averages.keys())`) deduplicates the detected column names. -/
def buildSummary (header : List String) (rows : List Row) : Summary :=
  let nc := numericCols header rows
  ⟨nc.map (fun p => (p.1, pymean p.2)),
   nc.map (fun p => (p.1, pymedian p.2)),
   nc.map (fun p => (p.1, pymin p.2)),
   nc.map (fun p => (p.1, pymax p.2)),
   typeDistribution rows,
   rows.length,
   (nc.map (fun p => p.1)).dedup,
   header⟩

/-- `parse_and_validate` over an already-read `(header, rows)` pair: the
required-column check (raising `File must include columns: ...`, whose
message always prints the full `REQUIRED_COLUMNS` list), then the base
numeric-value check, then the summary. -/
def parse_and_validate (header : List String) (rows : List Row) :
    Except Err Summary :=
  if header = [] ∨ ∃ c ∈ REQUIRED_COLUMNS, c ∉ header then
    Except.error (Err.missing REQUIRED_COLUMNS)
  else
    match checkRows rows 1 with
    | Except.error e => Except.error e
    | Except.ok _ => Except.ok (buildSummary header rows)

/-! ### `backend/visualizer/utils.py`: quality report -/

/-- Missing-value counts of `compute_quality`: per header column, the
number of rows whose value is `None` or `''`. -/
def missingValues (header : List String) (rows : List Row) :
    List (String × ℕ) :=
  header.map (fun col =>
    (col, (rows.filter (fun r => isEmptyVal (r.getv col))).length))

/-- The canonical duplicate-detection key of a row: the ordered tuple of
`(column, str(value))` pairs across the header. -/
def dupKey (header : List String) (r : Row) : List (String × String) :=
  header.map (fun col => (col, pystr (r.getv col)))

/-- The duplicate-row scan of `compute_quality`: rows whose key was seen
before are counted and the first three are kept as full-row samples. -/
def dupScan (header : List String) (rows : List Row) : ℕ × List Row :=
  let step := fun (st : List (List (String × String)) × ℕ × List Row) r =>
    let key := dupKey header r
    if key ∈ st.1 then
      (st.1, st.2.1 + 1,
       if st.2.2.length < 3 then
         st.2.2 ++ [header.map (fun c => (c, r.getv c))]
       else st.2.2)
    else (key :: st.1, st.2.1, st.2.2)
  let st := rows.foldl step ([], 0, [])
  (st.2.1, st.2.2)

/-- One column's range entry in `compute_quality`: the min/max of its
non-empty values.  The whole comprehension is wrapped in `try/except`, so
a single parse failure empties the column's value list (`vals = []`) and
the column is skipped; it is also skipped when it has no non-empty
values. -/
def rangeOf (rows : List Row) (col : String) : Option (ℚ × ℚ) :=
  let pres := nonEmptyVals rows col
  let vals : List ℚ :=
    if pres.all (fun v => (pyFloat v).isSome) then parsedOf pres else []
  if vals = [] then none else some (pymin vals, pymax vals)

/-- Numeric ranges of `compute_quality`, keyed by column in header
order. -/
def quality_ranges (header : List String) (rows : List Row) :
    List (String × (ℚ × ℚ)) :=
  header.filterMap (fun col => (rangeOf rows col).map (fun pr => (col, pr)))

/-- `infer_column_types`: a column (other than `Record`) is `numeric` when
every non-empty value parses as a float, else `string`. -/
def infer_column_types (header : List String) (rows : List Row) :
    List (String × String) :=
  header.filterMap (fun col =>
    if col = "Record" then none
    else
      some (col,
        if (nonEmptyVals rows col).all (fun v => (pyFloat v).isSome)
        then "numeric" else "string"))

/-- Sorted deduplicated column set, as Python `sorted(list(s))` over a
set built from a list of names. -/
def sortedSet (l : List String) : List String :=
  l.dedup.insertionSort (fun a b => a ≤ b)

/-- Schema drift of `compute_quality`: `none` when no (or an empty)
previous header is supplied, else the sorted added/removed/unchanged
column sets. -/
def schemaDrift (header : List String) (prev : Option (List String)) :
    Option (List String × List String × List String) :=
  match prev with
  | none => none
  | some p =>
    if p = [] then none
    else
      some (sortedSet (header.filter (fun c => c ∉ p)),
            sortedSet (p.filter (fun c => c ∉ header)),
            sortedSet (header.filter (fun c => c ∈ p)))

/-- The quality report of `compute_quality`. -/
structure QualityReport where
  missing_values : List (String × ℕ)
  duplicate_count : ℕ
  duplicate_samples : List Row
  ranges : List (String × (ℚ × ℚ))
  column_types : List (String × String)
  schema_drift : Option (List String × List String × List String)

/-- `compute_quality(header, rows, previous_headers)`. -/
def compute_quality (header : List String) (rows : List Row)
    (prev : Option (List String)) : QualityReport :=
  let d := dupScan header rows
  ⟨missingValues header rows, d.1, d.2, quality_ranges header rows,
   infer_column_types header rows, schemaDrift header prev⟩

/-! ### `_read_tabular`: the spreadsheet branch -/

/-- The spreadsheet branch of `_read_tabular`: the first row of the cell
grid becomes the header (`str(h).strip()` per cell, `''` for `None`, then
every `''` entry is dropped), and each later row is zipped positionally
with the retained header names (`{header[i]: vals[i] for i in
range(min(len(header), len(vals)))}`). -/
def read_xlsx (grid : List (List Val)) : List String × List Row :=
  match grid with
  | [] => ([], [])
  | hrow :: rest =>
    let header0 := hrow.map (fun h =>
      match h with
      | Val.null => ""
      | v => pyStrip (pystr v))
    let header := header0.filter (fun h => h ≠ "")
    (header, rest.map (fun vals => header.zip vals))

/-- The stripped first-row cells of the spreadsheet branch, before blank
cells are dropped. -/
def strippedHeader (hrow : List Val) : List String :=
  hrow.map (fun h =>
    match h with
    | Val.null => ""
    | v => pyStrip (pystr v))

/-- Modelled from the spec (for comparison with `read_xlsx`): the header
the specification describes, namely the stripped first-row cells with
only the trailing blank cells removed. -/
def specHeaderXlsx (hrow : List Val) : List String :=
  ((strippedHeader hrow).reverse.dropWhile (fun h => h = "")).reverse

/-! ### `desktop/app/widgets/visualization.py`: quartiles and outliers -/

/-- `IQR_MULTIPLIER` from `visualization.py`. -/
def IQR_MULTIPLIER : ℚ := 3 / 2

/-- `_to_float` from `visualization.py`: numbers coerce to themselves,
strings are stripped, the literals `nan`, `null`, `none` and the empty
string give `None`, any other string parses via `float`; everything else
(including `None`) gives `None`.  Non-finite results cannot arise over
rationals. -/
def _to_float : Val → Option ℚ
  | Val.null => none
  | Val.num q => some q
  | Val.str s p =>
    let t := pyStrip s
    if t = "" ∨ pyLower t ∈ ["nan", "null", "none", ""] then none else p

/-- Linear interpolation of a sorted list at a (rational) virtual index:
the value between the element at `⌊pos⌋` and its successor (the successor
defaults to the element itself at the last position). -/
def interpAt (arr : List ℚ) (pos : ℚ) : ℚ :=
  arr.getD (⌊pos⌋).toNat 0
    + (pos - ((⌊pos⌋).toNat : ℚ))
      * (arr.getD ((⌊pos⌋).toNat + 1) (arr.getD (⌊pos⌋).toNat 0)
          - arr.getD (⌊pos⌋).toNat 0)

/-- `np.percentile(arr, q, method='linear')` on an already-sorted list:
linear interpolation at virtual index `q/100 * (n-1)`. -/
def percentileLinear (arr : List ℚ) (q : ℚ) : ℚ :=
  interpAt arr (q * ((arr.length : ℚ) - 1) / 100)

/-- The quartile record returned by `_quartiles` (fields `qmin`/`qmax`
correspond to the output keys `min`/`max`). -/
structure Quartiles where
  qmin : ℚ
  q1 : ℚ
  q2 : ℚ
  q3 : ℚ
  qmax : ℚ
deriving DecidableEq

/-- `_quartiles(values)`: zeros for an empty list, else min / Q1 / Q2 /
Q3 / max of the sorted values with linearly interpolated percentiles.
(The `isfinite` clean-up of the Python code is vacuous over rationals.) -/
def _quartiles (values : List ℚ) : Quartiles :=
  if values = [] then ⟨0, 0, 0, 0, 0⟩
  else
    let arr := sortAsc values
    ⟨arr.headD 0, percentileLinear arr 25, percentileLinear arr 50,
     percentileLinear arr 75, arr.getLastD 0⟩

/-- The per-column outlier report of `_compute_outliers` (`lb`, `ub`,
`values`, `count`). -/
structure OutlierReport where
  lb : ℚ
  ub : ℚ
  values : List ℚ
  count : ℕ
deriving DecidableEq

/-- The float values of a column as collected by `_compute_outliers`. -/
def colValues (rows : List Row) (col : String) : List ℚ :=
  rows.filterMap (fun r => _to_float (r.getv col))

/-- Python `sorted(l, key=key, reverse=True)`: a stable descending sort
by key (insertion sort with the non-strict comparison is stable). -/
def pySortByDesc (key : ℚ → ℚ) (l : List ℚ) : List ℚ :=
  l.insertionSort (fun a b => key b ≤ key a)

/-- The local `lower_bound` of the `_compute_outliers` loop:
`q1 - IQR_MULTIPLIER * iqr`. -/
def out_lb (rows : List Row) (col : String) : ℚ :=
  (_quartiles (colValues rows col)).q1
    - IQR_MULTIPLIER * ((_quartiles (colValues rows col)).q3
        - (_quartiles (colValues rows col)).q1)

/-- The local `upper_bound` of the `_compute_outliers` loop:
`q3 + IQR_MULTIPLIER * iqr`. -/
def out_ub (rows : List Row) (col : String) : ℚ :=
  (_quartiles (colValues rows col)).q3
    + IQR_MULTIPLIER * ((_quartiles (colValues rows col)).q3
        - (_quartiles (colValues rows col)).q1)

/-- The local `outlier_values` of the `_compute_outliers` loop: the
values outside the bounds, sorted descending by
`max(|v - lower_bound|, |v - upper_bound|)` (Python's stable sort). -/
def outlier_values (rows : List Row) (col : String) : List ℚ :=
  pySortByDesc (fun v => max |v - out_lb rows col| |v - out_ub rows col|)
    ((colValues rows col).filter
      (fun v => decide (v < out_lb rows col ∨ v > out_ub rows col)))

/-- The body of the `_compute_outliers` loop for one column: with fewer
than 4 valid values a zero report; otherwise the IQR bounds, the sorted
outlier values truncated to at most 8, and the full outlier count. -/
def _compute_outliers_col (rows : List Row) (col : String) : OutlierReport :=
  if (colValues rows col).length < 4 then ⟨0, 0, [], 0⟩
  else
    ⟨out_lb rows col, out_ub rows col, (outlier_values rows col).take 8,
     (outlier_values rows col).length⟩

/-- `_compute_outliers(rows, numeric_cols)`: the per-column reports in
column order. -/
def _compute_outliers (rows : List Row) (numeric_cols : List String) :
    List (String × OutlierReport) :=
  numeric_cols.map (fun c => (c, _compute_outliers_col rows c))

/-! ### `compute_correlations` -/

/-- The float vector a row contributes to the correlation matrix, when it
is complete: a `None`/`''` value becomes `NaN` (dropping the row) and a
parse failure turns the whole row into `NaN`s (also dropping it), so a
row survives exactly when every requested column holds a non-empty value
that parses as a float. -/
def completeVec (r : Row) (cols : List String) : Option (List ℚ) :=
  cols.mapM (fun c =>
    let v := r.getv c
    if isEmptyVal v then none else pyFloat v)

/-- The complete rows kept by `compute_correlations` after the
`np.isnan` filter. -/
def completeRows (rows : List Row) (cols : List String) : List (List ℚ) :=
  rows.filterMap (fun r => completeVec r cols)

/-- Column `i` of the complete-row matrix. -/
def colOf (data : List (List ℚ)) (i : ℕ) : List ℚ :=
  data.map (fun v => v.getD i 0)

/-- The sample covariance (`np.cov` with its default `ddof = 1`) of
columns `i` and `j` of the complete-row matrix. -/
def cov (data : List (List ℚ)) (i j : ℕ) : ℚ :=
  ((data.map (fun v =>
      (v.getD i 0 - pymean (colOf data i))
        * (v.getD j 0 - pymean (colOf data j)))).sum) /
    ((data.length : ℚ) - 1)

/-- One entry of `np.corrcoef`: the covariance normalized by the square
roots of the diagonal, clipped to `[-1, 1]` as numpy does. -/
noncomputable def corrEntry (data : List (List ℚ)) (i j : ℕ) : ℝ :=
  max (-1) (min 1
    ((cov data i j : ℝ) /
      (Real.sqrt ((cov data i i : ℚ) : ℝ) *
       Real.sqrt ((cov data j j : ℚ) : ℝ))))

/-- The result dictionary of `compute_correlations`. -/
structure CorrReport where
  matrix : List (List ℝ)
  order : List String
  strongest_pairs : List ((String × String) × ℝ)

/-- The numpy exception `compute_correlations` can raise: with zero raw
rows, `np.array([], dtype=float)` is 1-dimensional, so the row filter
`np.isnan(arr).any(axis=1)` raises `numpy.AxisError` (axis 1 out of
bounds) before the `arr.shape[0] < 2` guard is reached. -/
inductive NpErr where
  | axisError : NpErr
deriving DecidableEq

/-- The local `corr` of `compute_correlations` as a nested list
(`corr.tolist()`). -/
noncomputable def corrMatrix (rows : List Row) (numeric_cols : List String) :
    List (List ℝ) :=
  (List.range numeric_cols.length).map (fun i =>
    (List.range numeric_cols.length).map (fun j =>
      corrEntry (completeRows rows numeric_cols) i j))

/-- The local `pairs` of `compute_correlations` after its sort: all
unique column pairs ordered by descending absolute correlation
(Python's stable sort). -/
noncomputable def corrPairsSorted (rows : List Row)
    (numeric_cols : List String) : List ((String × String) × ℝ) :=
  @List.insertionSort _ (fun a b => |b.2| ≤ |a.2|) (Classical.decRel _)
    ((List.range numeric_cols.length).flatMap (fun i =>
      (List.range' (i + 1) (numeric_cols.length - (i + 1))).map (fun j =>
        ((numeric_cols.getD i "", numeric_cols.getD j ""),
         corrEntry (completeRows rows numeric_cols) i j))))

/-- `compute_correlations(rows, numeric_cols)`.  The loop appends one
entry per raw row (the `except` branch appends an all-`NaN` row), so
`data` is empty exactly when `rows` is: there `np.isnan(arr).any(axis=1)`
raises `numpy.AxisError` on the 1-D empty array.  Otherwise the array is
2-D; with fewer than 2 complete rows the result is an empty matrix and
pair list, else the full correlation matrix and the top-3 strongest
pairs. -/
noncomputable def compute_correlations (rows : List Row)
    (numeric_cols : List String) : Except NpErr CorrReport :=
  if rows = [] then Except.error NpErr.axisError
  else if (completeRows rows numeric_cols).length < 2 then
    Except.ok ⟨[], numeric_cols, []⟩
  else
    Except.ok ⟨corrMatrix rows numeric_cols, numeric_cols,
      (corrPairsSorted rows numeric_cols).take 3⟩

/-! ### `kmeans_clusters` -/

/-- A row as produced by `parse_rows`: the cells together with the
synthetic 1-based `Record` index. -/
structure RRow where
  record : ℕ
  cells : Row

/-- The abstraction of one fitted `sklearn.cluster.KMeans` model: its
per-sample labels, cluster centers and inertia. -/
structure KMeansModel where
  labels : List ℕ
  centroids : List (List ℚ)
  inertia : ℚ

/-- The clustering result dictionary of `kmeans_clusters`. -/
structure ClusterResult where
  k : ℕ
  labels : List ℕ
  rec_ids : List ℕ
  centroids : List (List ℚ)
deriving DecidableEq

/-- The feature vector a row contributes to the k-means matrix:
`[float(r.get(c)) for c in numeric_cols]` raises (skipping the row) as
soon as any requested feature is absent, empty or unparseable.  (The
subsequent `any(v in (None, '') ...)` test over the obtained floats can
never fire and is dropped.) -/
def completeFeat (r : RRow) (cols : List String) : Option (List ℚ) :=
  cols.mapM (fun c => pyFloat (r.cells.getv c))

/-- One iteration of the elbow sweep of `kmeans_clusters`: fit `k` and
keep the model with the strictly lowest inertia seen so far (`None`
models `best_inertia is None`, which the first iteration always
replaces). -/
def kmStep (fit : ℕ → List (List ℚ) → KMeansModel) (X : List (List ℚ))
    (best : Option (ℕ × KMeansModel)) (k : ℕ) : Option (ℕ × KMeansModel) :=
  match best with
  | none => some (k, fit k X)
  | some (bk, bm) =>
    if (fit k X).inertia < bm.inertia then some (k, fit k X)
    else some (bk, bm)

/-- The elbow sweep of `kmeans_clusters` over the candidate `k`s. -/
def kmSweep (fit : ℕ → List (List ℚ) → KMeansModel) (X : List (List ℚ))
    (ks : List ℕ) : Option (ℕ × KMeansModel) :=
  ks.foldl (kmStep fit X) none

/-- `kmeans_clusters(rows, numeric_cols, max_k)`, parameterized by the
abstract `fit` of `sklearn.cluster.KMeans` (the fixed seed makes it a
function of `k` and the data).  Python's `range(2, min(max_k, len(X))+1)`
is `List.range' 2 (min max_k X.length - 1)`.  The `none` branch of the
sweep is unreachable when the range is non-empty. -/
def kmeans_clusters (fit : ℕ → List (List ℚ) → KMeansModel)
    (rows : List RRow) (numeric_cols : List String) (max_k : ℕ) :
    ClusterResult :=
  let pairs := rows.filterMap (fun r =>
    (completeFeat r numeric_cols).map (fun v => (v, r.record)))
  let X := pairs.map (fun p => p.1)
  let rec_ids := pairs.map (fun p => p.2)
  if X.length < 2 then ⟨0, [], [], []⟩
  else
    match kmSweep fit X (List.range' 2 (min max_k X.length - 1)) with
    | some (bk, bm) => ⟨bk, bm.labels, rec_ids, bm.centroids⟩
    | none => ⟨2, [], rec_ids, []⟩

/-- A cell value that fails the validator's base-column check: non-empty
(neither `None` nor `''`) yet not parseable as a float. -/
def isBad (v : Val) : Prop := isEmptyVal v = false ∧ pyFloat v = none

instance (v : Val) : Decidable (isBad v) := by
  unfold isBad; infer_instance

/-- The distance of an outlier past the nearer IQR bound. -/
def distPast (lb ub v : ℚ) : ℚ := if v > ub then v - ub else lb - v

/-! ## Claims -/

/-- C1 counterexample: with a header missing only `Temperature`, the
validator's error names the full required-column list — including
`Equipment Name`, which is not missing — rather than exactly the missing
columns. -/
theorem c1_counterexample :
    parse_and_validate ["Equipment Name", "Type", "Flowrate", "Pressure"] []
      = Except.error (Err.missing REQUIRED_COLUMNS)
    ∧ REQUIRED_COLUMNS.filter
        (fun c => !(["Equipment Name", "Type", "Flowrate", "Pressure"].contains c))
      = ["Temperature"]
    ∧ Err.missing REQUIRED_COLUMNS ≠ Err.missing ["Temperature"]
    ∧ "Equipment Name" ∈ REQUIRED_COLUMNS
    ∧ "Equipment Name" ∈ ["Equipment Name", "Type", "Flowrate", "Pressure"] :=
  ⟨rfl, rfl, by decide, by decide, by decide⟩

/-- C1 (amended): for every input whose header lacks one or more of the
required columns, validation fails with a `ValidationError` whose message
names the full required-column list `{Equipment Name, Type, Flowrate,
Pressure, Temperature}` (not just the missing ones), regardless of row
content. -/
theorem c1_missing_required (header : List String) (rows : List Row)
    (h : ∃ c ∈ REQUIRED_COLUMNS, c ∉ header) :
    parse_and_validate header rows
      = Except.error (Err.missing REQUIRED_COLUMNS) := by
  unfold parse_and_validate
  rw [if_pos (Or.inr h)]

/-- Witness for `c1_missing_required` at a concrete header. -/
theorem c1_missing_required_witness :
    (∃ c ∈ REQUIRED_COLUMNS, c ∉ (["Equipment Name"] : List String))
    ∧ parse_and_validate ["Equipment Name"] []
        = Except.error (Err.missing REQUIRED_COLUMNS) :=
  ⟨by decide, c1_missing_required _ _ (by decide)⟩

/-- C10: with all required columns present and zero data rows,
`parse_and_validate` succeeds and returns the empty summary: row count 0,
empty averages/median/min/max/type-distribution maps, no numeric columns,
and `all_columns` equal to the header. -/
theorem c10_zero_rows (header : List String) (h1 : header ≠ [])
    (h2 : ∀ c ∈ REQUIRED_COLUMNS, c ∈ header) :
    parse_and_validate header []
      = Except.ok ⟨[], [], [], [], [], 0, [], header⟩ := by
  have hcond : ¬(header = [] ∨ ∃ c ∈ REQUIRED_COLUMNS, c ∉ header) := by
    push_neg
    exact ⟨h1, h2⟩
  have hdetect : detectNumeric header [] = [] := by
    unfold detectNumeric
    rw [List.filterMap_eq_nil_iff]
    intro col _
    simp [nonEmptyVals]
  have hfall : fallbackNumeric [] = [] := by
    unfold fallbackNumeric
    rw [List.filterMap_eq_nil_iff]
    intro col _
    simp [nonEmptyVals, parsedOf]
  unfold parse_and_validate
  rw [if_neg hcond]
  show Except.ok (buildSummary header []) = _
  unfold buildSummary numericCols
  rw [hdetect]
  simp [hfall, typeDistribution]

/-- Witness for `c10_zero_rows` at a concrete header. -/
theorem c10_zero_rows_witness :
    parse_and_validate REQUIRED_COLUMNS []
      = Except.ok ⟨[], [], [], [], [], 0, [], REQUIRED_COLUMNS⟩ :=
  c10_zero_rows REQUIRED_COLUMNS (by decide) (by decide)

/-- The filtered pair list of `kmeans_clusters` has as many entries as
there are rows whose every requested feature parses. -/
theorem kmeans_pairs_length (rows : List RRow) (cols : List String) :
    (rows.filterMap (fun r =>
      (completeFeat r cols).map (fun v => (v, r.record)))).length
    = (rows.filter (fun r => (completeFeat r cols).isSome)).length := by
  induction rows with
  | nil => rfl
  | cons r rest ih => cases h : completeFeat r cols <;> simp [h, ih]

/-- C4 (code bug): the claim's clustering and outlier conjuncts hold,
and correlation degrades gracefully for every *non-empty* rows input
with fewer than 2 complete rows — but at the claim's own insufficient-
data condition with zero raw rows, `compute_correlations` raises
`numpy.AxisError` (the 1-D empty array has no axis 1) instead of
returning the empty matrix, contradicting the spec's stated
graceful-degradation semantics and the code's own `< 2` guard. -/
theorem c4_insufficient_data :
    (∀ cols : List String,
        compute_correlations [] cols = Except.error NpErr.axisError)
    ∧ (∀ (rows : List Row) (cols : List String), rows ≠ [] →
        (completeRows rows cols).length < 2 →
        compute_correlations rows cols = Except.ok ⟨[], cols, []⟩)
    ∧ (∀ (fit : ℕ → List (List ℚ) → KMeansModel) (rows : List RRow)
          (cols : List String),
        (rows.filter (fun r => (completeFeat r cols).isSome)).length < 2 →
        kmeans_clusters fit rows cols 4 = ⟨0, [], [], []⟩)
    ∧ (∀ (rows : List Row) (col : String),
        (colValues rows col).length < 4 →
        _compute_outliers_col rows col = ⟨0, 0, [], 0⟩) := by
  refine ⟨fun cols => ?_, fun rows cols hne h => ?_,
    fun fit rows cols h => ?_, fun rows col h => ?_⟩
  · unfold compute_correlations
    rw [if_pos rfl]
  · unfold compute_correlations
    rw [if_neg hne, if_pos h]
  · simp only [kmeans_clusters, List.length_map, kmeans_pairs_length]
    rw [if_pos h]
  · unfold _compute_outliers_col
    rw [if_pos h]

/-- Witness for `c4_insufficient_data` at concrete inputs: the empty
rows list raises, a single incomplete row degrades gracefully for
correlation and clustering, three values for the outlier report. -/
theorem c4_insufficient_data_witness :
    compute_correlations [] ["A", "B"] = Except.error NpErr.axisError
    ∧ compute_correlations [[("A", Val.num 1)]] ["A", "B"]
        = Except.ok ⟨[], ["A", "B"], []⟩
    ∧ kmeans_clusters (fun _ _ => ⟨[], [], 0⟩)
        [⟨1, [("A", Val.num 1)]⟩] ["A", "B"] 4 = ⟨0, [], [], []⟩
    ∧ _compute_outliers_col
        [[("F", Val.num 10)], [("F", Val.num 12)], [("F", Val.num 200)]] "F"
      = ⟨0, 0, [], 0⟩ :=
  ⟨c4_insufficient_data.1 ["A", "B"],
   c4_insufficient_data.2.1 _ _ (by decide) (by decide),
   c4_insufficient_data.2.2.1 _ _ _ (by decide),
   c4_insufficient_data.2.2.2 _ _ (by decide)⟩

/-- Looking up a key outside the key list of a keyed `filterMap` finds
nothing. -/
theorem lookup_keyed_filterMap_not_mem {β : Type} (g : String → Option β)
    (l : List String) (c : String) (hc : c ∉ l) :
    (l.filterMap (fun a => (g a).map (fun x => (a, x)))).lookup c = none := by
  induction l with
  | nil => rfl
  | cons a rest ih =>
    have hac : (c == a) = false :=
      beq_eq_false_iff_ne.mpr (fun h => hc (h ▸ List.mem_cons_self a rest))
    have hrest : c ∉ rest := fun h => hc (List.mem_cons_of_mem a h)
    cases hga : g a with
    | none =>
      simp only [List.filterMap_cons, hga]
      exact ih hrest
    | some x =>
      simp only [List.filterMap_cons, hga, Option.map_some', List.lookup_cons,
        hac]
      exact ih hrest

/-- Looking up a present key in a keyed `filterMap` returns exactly what
the generator computes for it. -/
theorem lookup_keyed_filterMap {β : Type} (g : String → Option β)
    (l : List String) (c : String) (hc : c ∈ l) :
    (l.filterMap (fun a => (g a).map (fun x => (a, x)))).lookup c = g c := by
  induction l with
  | nil => cases hc
  | cons a rest ih =>
    by_cases hac : c = a
    · subst hac
      cases hga : g c with
      | some x =>
        simp only [List.filterMap_cons, hga, Option.map_some',
          List.lookup_cons_self]
      | none =>
        simp only [List.filterMap_cons, hga]
        by_cases hrest : c ∈ rest
        · exact (ih hrest).trans hga
        · exact lookup_keyed_filterMap_not_mem g rest c hrest
    · have hrest : c ∈ rest := (List.mem_cons.mp hc).resolve_left hac
      have hbeq : (c == a) = false := beq_eq_false_iff_ne.mpr hac
      cases hga : g a with
      | none =>
        simp only [List.filterMap_cons, hga]
        exact ih hrest
      | some x =>
        simp only [List.filterMap_cons, hga, Option.map_some',
          List.lookup_cons, hbeq]
        exact ih hrest

/-- When every cell of a list parses, the parsed list has the same
length. -/
theorem parsedOf_length_of_all (vs : List Val)
    (h : vs.all (fun v => (pyFloat v).isSome)) :
    (parsedOf vs).length = vs.length := by
  induction vs with
  | nil => rfl
  | cons v rest ih =>
    simp only [List.all_cons, Bool.and_eq_true] at h
    cases hpv : pyFloat v with
    | none =>
      rw [hpv] at h
      exact absurd h.1 (by simp)
    | some q =>
      have hr := ih h.2
      simp only [parsedOf, List.filterMap_cons, hpv, List.length_cons] at hr ⊢
      omega

/-- The range entry of one column, characterized: present exactly when
the column has a non-empty value and all its non-empty values parse. -/
theorem rangeOf_char (rows : List Row) (col : String) :
    rangeOf rows col =
      if nonEmptyVals rows col ≠ [] ∧
          (nonEmptyVals rows col).all (fun v => (pyFloat v).isSome)
      then some (pymin (parsedOf (nonEmptyVals rows col)),
                 pymax (parsedOf (nonEmptyVals rows col)))
      else none := by
  unfold rangeOf
  by_cases hall : (nonEmptyVals rows col).all (fun v => (pyFloat v).isSome)
  · by_cases hne : nonEmptyVals rows col = []
    · simp [hall, hne, parsedOf]
    · have hlen : (parsedOf (nonEmptyVals rows col)).length
          = (nonEmptyVals rows col).length := parsedOf_length_of_all _ hall
      have hpv : parsedOf (nonEmptyVals rows col) ≠ [] := by
        intro hnil
        rw [hnil] at hlen
        exact hne (List.length_eq_zero.mp hlen.symm)
      simp [hall, hne, hpv]
  · simp [hall]

/-- C8 counterexample: in a column whose values are the strings `1` and
`x`, the value `1` parses as a float, yet the column is omitted from the
ranges (the claim allows omission only when no value parses, and would
require the entry `(1, 1)` here). -/
theorem c8_counterexample :
    quality_ranges ["A"]
        [[("A", Val.str "1" (some 1))], [("A", Val.str "x" none)]] = []
    ∧ (pyFloat (Val.str "1" (some 1))).isSome = true
    ∧ Val.str "1" (some 1)
        ∈ nonEmptyVals [[("A", Val.str "1" (some 1))],
                        [("A", Val.str "x" none)]] "A" := by
  refine ⟨by decide, by decide, by decide⟩

/-- C8 (amended): for every header column, the quality report's ranges
entry for that column is present exactly when the column has at least one
non-empty value and every non-empty value parses as a float, in which
case it is the min and max over those (all-parseable) values; the column
is omitted whenever it has no non-empty value or any non-empty value
fails to parse. -/
theorem c8_ranges (header : List String) (rows : List Row) (col : String)
    (hc : col ∈ header) :
    (quality_ranges header rows).lookup col =
      if nonEmptyVals rows col ≠ [] ∧
          (nonEmptyVals rows col).all (fun v => (pyFloat v).isSome)
      then some (pymin (parsedOf (nonEmptyVals rows col)),
                 pymax (parsedOf (nonEmptyVals rows col)))
      else none := by
  unfold quality_ranges
  rw [lookup_keyed_filterMap (rangeOf rows) header col hc, rangeOf_char]

/-- Witness for `c8_ranges`: a column with two parseable values gets the
entry `(1, 5)`. -/
theorem c8_ranges_witness :
    (quality_ranges ["A"]
        [[("A", Val.str "1" (some 1))], [("A", Val.str "5" (some 5))]]).lookup "A"
      = some (1, 5) := by
  rw [c8_ranges ["A"] _ "A" (by decide)]
  decide

/-- Looking a header name up in a positionally zipped row returns the
cell at the name's position, provided the header names are distinct
(absent cells — rows shorter than the header — give `None`). -/
theorem getv_zip (hs : List String) (vs : List Val) (hnd : hs.Nodup)
    (j : ℕ) (hj : j < hs.length) :
    Row.getv (hs.zip vs) (hs.getD j "") = vs.getD j Val.null := by
  induction hs generalizing vs j with
  | nil => cases hj
  | cons a hs ih =>
    cases vs with
    | nil =>
      show Row.getv [] _ = Val.null
      rfl
    | cons v vs =>
      cases j with
      | zero =>
        show Row.getv ((a, v) :: hs.zip vs) a = v
        simp [Row.getv, List.find?_cons]
      | succ j =>
        have hj' : j < hs.length := Nat.lt_of_succ_lt_succ hj
        have hmem : hs.getD j "" ∈ hs := by
          rw [List.getD_eq_getElem _ _ hj']
          exact List.getElem_mem hj'
        have hne : (a == hs.getD j "") = false :=
          beq_eq_false_iff_ne.mpr
            (fun h => (List.nodup_cons.mp hnd).1 (by rw [h]; exact hmem))
        show Row.getv ((a, v) :: hs.zip vs) (hs.getD j "") = vs.getD j Val.null
        unfold Row.getv
        rw [List.find?_cons]
        simp only [hne]
        exact ih vs (List.nodup_cons.mp hnd).2 j hj'

/-- C9 counterexample: a first row `["A", " ", "B"]` with an interior
blank cell.  The code drops the interior blank too, so the returned
header differs from the spec's (strip, drop only trailing blanks), and
in the data row `[1, 2, 3]` the name `B` — whose original column position
holds `3` — is mapped to `2`. -/
theorem c9_counterexample :
    (read_xlsx [[Val.str "A" none, Val.str " " none, Val.str "B" none],
                [Val.num 1, Val.num 2, Val.num 3]]).1
      ≠ specHeaderXlsx [Val.str "A" none, Val.str " " none, Val.str "B" none]
    ∧ Row.getv
        (((read_xlsx [[Val.str "A" none, Val.str " " none, Val.str "B" none],
                      [Val.num 1, Val.num 2, Val.num 3]]).2).getD 0 []) "B"
      = Val.num 2
    ∧ [Val.num 1, Val.num 2, Val.num 3].getD 2 Val.null = Val.num 3
    ∧ Val.num 2 ≠ Val.num 3 := by
  refine ⟨by decide, by decide, by decide, by decide⟩

/-- C9 (amended): the spreadsheet reader's header is the first row's
stripped cells with every blank cell removed (not only trailing ones);
when the blank cells happen to be only trailing — so that dropping all
blanks and dropping trailing blanks agree — and the retained names are
distinct, each subsequent record maps the `j`-th retained header name to
the cell at its original column position `j` (rows shorter than the
header leave the remaining names unmapped, read back as `None`). -/
theorem c9_xlsx_header (hrow : List Val) (rest : List (List Val))
    (hblank : specHeaderXlsx hrow
      = (strippedHeader hrow).filter (fun h => h ≠ ""))
    (hnd : ((strippedHeader hrow).filter (fun h => h ≠ "")).Nodup) :
    (read_xlsx (hrow :: rest)).1 = specHeaderXlsx hrow
    ∧ ∀ t, t < rest.length → ∀ j, j < (read_xlsx (hrow :: rest)).1.length →
        Row.getv ((read_xlsx (hrow :: rest)).2.getD t [])
            ((read_xlsx (hrow :: rest)).1.getD j "")
          = (rest.getD t []).getD j Val.null := by
  have hfst : (read_xlsx (hrow :: rest)).1
      = (strippedHeader hrow).filter (fun h => h ≠ "") := rfl
  constructor
  · rw [hfst, hblank]
  · intro t ht j hj
    have hsnd : (read_xlsx (hrow :: rest)).2
        = rest.map (fun vals =>
            ((strippedHeader hrow).filter (fun h => h ≠ "")).zip vals) := rfl
    rw [hfst] at hj ⊢
    rw [hsnd, List.getD_eq_getElem _ _ (by simpa using ht), List.getElem_map,
      List.getD_eq_getElem _ _ ht]
    exact getv_zip _ _ hnd j hj

/-- Witness for `c9_xlsx_header`: a grid whose only blank header cell is
trailing; the name `B` reads back the cell at its original position. -/
theorem c9_xlsx_header_witness :
    specHeaderXlsx [Val.str "A" none, Val.str "B" none, Val.null]
      = (strippedHeader [Val.str "A" none, Val.str "B" none, Val.null]).filter
          (fun h => h ≠ "")
    ∧ (read_xlsx [[Val.str "A" none, Val.str "B" none, Val.null],
                  [Val.num 1, Val.num 2, Val.num 3]]).1
      = specHeaderXlsx [Val.str "A" none, Val.str "B" none, Val.null] := by
  refine ⟨by decide, ?_⟩
  exact (c9_xlsx_header [Val.str "A" none, Val.str "B" none, Val.null]
    [[Val.num 1, Val.num 2, Val.num 3]] (by decide) (by decide)).1

/-- Membership in the numeric-detection list, characterized: a pair is
produced exactly for a non-anchor header column with non-empty values
whose parseable fraction reaches 80% (the `parsed_vals` non-emptiness of
the code follows from the ratio, but is part of the condition). -/
theorem mem_detectNumeric (header : List String) (rows : List Row)
    (col : String) (pv : List ℚ) :
    (col, pv) ∈ detectNumeric header rows ↔
      col ∈ header ∧ ¬(col = "Type" ∨ col = "Equipment Name")
      ∧ nonEmptyVals rows col ≠ []
      ∧ ((parsedOf (nonEmptyVals rows col)).length : ℚ)
          / ((nonEmptyVals rows col).length : ℚ) ≥ 4 / 5
      ∧ parsedOf (nonEmptyVals rows col) ≠ []
      ∧ pv = parsedOf (nonEmptyVals rows col) := by
  unfold detectNumeric
  rw [List.mem_filterMap]
  constructor
  · rintro ⟨a, ha, hfa⟩
    by_cases h1 : a = "Type" ∨ a = "Equipment Name"
    · rw [if_pos h1] at hfa
      exact absurd hfa (by simp)
    · rw [if_neg h1] at hfa
      by_cases h2 : nonEmptyVals rows a = []
      · rw [if_pos h2] at hfa
        exact absurd hfa (by simp)
      · rw [if_neg h2] at hfa
        by_cases h3 : ((parsedOf (nonEmptyVals rows a)).length : ℚ)
              / ((nonEmptyVals rows a).length : ℚ) ≥ 4 / 5
            ∧ parsedOf (nonEmptyVals rows a) ≠ []
        · rw [if_pos h3] at hfa
          injection hfa with hpair
          injection hpair with hcol hpv
          subst hcol
          subst hpv
          exact ⟨ha, h1, h2, h3.1, h3.2, rfl⟩
        · rw [if_neg h3] at hfa
          exact absurd hfa (by simp)
  · rintro ⟨hmem, h1, h2, h3, h4, rfl⟩
    refine ⟨col, hmem, ?_⟩
    rw [if_neg h1, if_neg h2, if_pos ⟨h3, h4⟩]

/-- Every column the fallback produces is one of the three base numeric
columns. -/
theorem fallback_keys (rows : List Row) (p : String × List ℚ)
    (hp : p ∈ fallbackNumeric rows) : p.1 ∈ BASE_NUMERIC := by
  unfold fallbackNumeric at hp
  rcases List.mem_filterMap.mp hp with ⟨b, hb, hfb⟩
  by_cases h1 : ((nonEmptyVals rows b).all fun v => (pyFloat v).isSome) = true
  · rw [if_pos h1] at hfb
    by_cases h2 : parsedOf (nonEmptyVals rows b) = []
    · rw [if_pos h2] at hfb
      exact absurd hfb (by simp)
    · rw [if_neg h2] at hfb
      injection hfb with hfb
      rw [← hfb]
      exact hb
  · rw [if_neg h1] at hfb
    exact absurd hfb (by simp)

/-- When the parseable fraction of a column's non-empty values reaches
80%, its parsed list is non-empty. -/
theorem parsedOf_ne_nil_of_ratio (rows : List Row) (col : String)
    (h : ((parsedOf (nonEmptyVals rows col)).length : ℚ)
        / ((nonEmptyVals rows col).length : ℚ) ≥ 4 / 5) :
    parsedOf (nonEmptyVals rows col) ≠ [] := by
  intro hnil
  rw [hnil] at h
  simp only [List.length_nil, Nat.cast_zero, zero_div] at h
  norm_num at h

/-- C3: a non-required (hence non-anchor) header column with at least one
non-empty value is classified numeric — i.e. appears in the summary's
`numeric_columns` — if and only if the fraction of its non-empty values
that parse as floats is at least `4/5` (boundary inclusive). -/
theorem c3_numeric_threshold (header : List String) (rows : List Row)
    (col : String) (hmem : col ∈ header) (hreq : col ∉ REQUIRED_COLUMNS)
    (hne : nonEmptyVals rows col ≠ []) :
    col ∈ (buildSummary header rows).numeric_columns ↔
      ((parsedOf (nonEmptyVals rows col)).length : ℚ)
          / ((nonEmptyVals rows col).length : ℚ) ≥ 4 / 5 := by
  have hanchor : ¬(col = "Type" ∨ col = "Equipment Name") := by
    rintro (rfl | rfl)
    · exact hreq (by decide)
    · exact hreq (by decide)
  have hbase : col ∉ BASE_NUMERIC := by
    intro hb
    simp only [BASE_NUMERIC, List.mem_cons, List.mem_singleton,
      List.not_mem_nil, or_false] at hb
    rcases hb with rfl | rfl | rfl
    · exact hreq (by decide)
    · exact hreq (by decide)
    · exact hreq (by decide)
  have hsum : (buildSummary header rows).numeric_columns
      = ((numericCols header rows).map (fun p => p.1)).dedup := rfl
  rw [hsum, List.mem_dedup, List.mem_map]
  unfold numericCols
  by_cases hd : detectNumeric header rows = []
  · rw [hd]
    simp only [if_pos rfl]
    constructor
    · rintro ⟨p, hp, rfl⟩
      exact absurd (fallback_keys rows p hp) hbase
    · intro hratio
      exfalso
      have : (col, parsedOf (nonEmptyVals rows col))
          ∈ detectNumeric header rows :=
        (mem_detectNumeric header rows col _).mpr
          ⟨hmem, hanchor, hne, hratio,
           parsedOf_ne_nil_of_ratio rows col hratio, rfl⟩
      rw [hd] at this
      cases this
  · rw [if_neg hd]
    constructor
    · rintro ⟨p, hp, rfl⟩
      rcases p with ⟨c, pv⟩
      exact ((mem_detectNumeric header rows c pv).mp hp).2.2.2.1
    · intro hratio
      exact ⟨(col, parsedOf (nonEmptyVals rows col)),
        (mem_detectNumeric header rows col _).mpr
          ⟨hmem, hanchor, hne, hratio,
           parsedOf_ne_nil_of_ratio rows col hratio, rfl⟩, rfl⟩

/-- Witness for `c3_numeric_threshold`: a column `X` with exactly 4 of
its 5 non-empty values parseable (the 80% boundary). -/
theorem c3_numeric_threshold_witness :
    ("X" ∈ (buildSummary ["X"]
        [[("X", Val.num 1)], [("X", Val.num 2)], [("X", Val.num 3)],
         [("X", Val.num 4)], [("X", Val.str "oops" none)]]).numeric_columns ↔
      ((parsedOf (nonEmptyVals
            [[("X", Val.num 1)], [("X", Val.num 2)], [("X", Val.num 3)],
             [("X", Val.num 4)], [("X", Val.str "oops" none)]] "X")).length : ℚ)
          / ((nonEmptyVals
            [[("X", Val.num 1)], [("X", Val.num 2)], [("X", Val.num 3)],
             [("X", Val.num 4)], [("X", Val.str "oops" none)]] "X").length : ℚ)
          ≥ 4 / 5)
    ∧ (parsedOf (nonEmptyVals
          [[("X", Val.num 1)], [("X", Val.num 2)], [("X", Val.num 3)],
           [("X", Val.num 4)], [("X", Val.str "oops" none)]] "X")).length = 4
    ∧ (nonEmptyVals
          [[("X", Val.num 1)], [("X", Val.num 2)], [("X", Val.num 3)],
           [("X", Val.num 4)], [("X", Val.str "oops" none)]] "X").length = 5 :=
  ⟨c3_numeric_threshold ["X"] _ "X" (by decide) (by decide) (by decide),
   by decide, by decide⟩

/-- Folding the sweep step over any list keeps a present best model
present. -/
theorem kmStep_foldl_isSome (fit : ℕ → List (List ℚ) → KMeansModel)
    (X : List (List ℚ)) (ks : List ℕ) (acc : ℕ × KMeansModel) :
    (ks.foldl (kmStep fit X) (some acc)).isSome = true := by
  induction ks generalizing acc with
  | nil => rfl
  | cons k ks ih =>
    obtain ⟨bk, bm⟩ := acc
    rw [List.foldl_cons]
    by_cases h : (fit k X).inertia < bm.inertia
    · rw [show kmStep fit X (some (bk, bm)) k = some (k, fit k X) from
        if_pos h]
      exact ih _
    · rw [show kmStep fit X (some (bk, bm)) k = some (bk, bm) from if_neg h]
      exact ih _

/-- The sweep over a non-empty candidate list returns a best model. -/
theorem kmSweep_isSome (fit : ℕ → List (List ℚ) → KMeansModel)
    (X : List (List ℚ)) (ks : List ℕ) (h : ks ≠ []) :
    (kmSweep fit X ks).isSome = true := by
  cases ks with
  | nil => cases h rfl
  | cons k ks =>
    unfold kmSweep
    rw [List.foldl_cons]
    exact kmStep_foldl_isSome fit X ks (k, fit k X)

/-- Whatever best model the sweep returns is one of the fitted models. -/
theorem kmSweep_model (fit : ℕ → List (List ℚ) → KMeansModel)
    (X : List (List ℚ)) (ks : List ℕ) :
    ∀ acc : Option (ℕ × KMeansModel),
      (acc = none ∨ ∃ p, acc = some p ∧ ∃ k2, p.2 = fit k2 X) →
      ∀ p, ks.foldl (kmStep fit X) acc = some p → ∃ k2, p.2 = fit k2 X := by
  induction ks with
  | nil =>
    rintro acc (rfl | ⟨q, rfl, k2, hq⟩) p hp
    · cases hp
    · cases hp
      exact ⟨k2, hq⟩
  | cons k ks ih =>
    intro acc hacc p hp
    rw [List.foldl_cons] at hp
    refine ih (kmStep fit X acc k) ?_ p hp
    rcases hacc with rfl | ⟨⟨bk, bm⟩, rfl, k2, hq⟩
    · exact Or.inr ⟨(k, fit k X), rfl, k, rfl⟩
    · by_cases h : (fit k X).inertia < bm.inertia
      · exact Or.inr ⟨(k, fit k X),
          (show kmStep fit X (some (bk, bm)) k = some (k, fit k X) from
            if_pos h).symm ▸ rfl, k, rfl⟩
      · exact Or.inr ⟨(bk, bm),
          (show kmStep fit X (some (bk, bm)) k = some (bk, bm) from
            if_neg h).symm ▸ rfl, k2, hq⟩

/-- The Record ids of the filtered pair list are exactly those of the
rows whose every requested feature parses, in order. -/
theorem kmeans_pairs_snd (rows : List RRow) (cols : List String) :
    ((rows.filterMap (fun r =>
        (completeFeat r cols).map (fun v => (v, r.record)))).map
      (fun p => p.2))
    = (rows.filter (fun r => (completeFeat r cols).isSome)).map
        (fun r => r.record) := by
  induction rows with
  | nil => rfl
  | cons r rest ih => cases h : completeFeat r cols <;> simp [h, ih]

/-- C6: for every rows input and requested feature set (with the default
`max_k = 4`), the clustering result's `rec_ids` contains only Record ids
of rows in which every requested feature is present and parses as a
float; `labels` has the same length as `rec_ids` (given that a fitted
k-means model labels each sample, as sklearn guarantees); and — Record
ids being unique by construction — no id of a row with a missing feature
value is ever assigned a label. -/
theorem c6_clustering (fit : ℕ → List (List ℚ) → KMeansModel)
    (hfit : ∀ k X, (fit k X).labels.length = X.length)
    (rows : List RRow) (cols : List String) :
    (∀ id ∈ (kmeans_clusters fit rows cols 4).rec_ids,
        ∃ r ∈ rows, (completeFeat r cols).isSome = true ∧ r.record = id)
    ∧ (kmeans_clusters fit rows cols 4).labels.length
        = (kmeans_clusters fit rows cols 4).rec_ids.length
    ∧ ((rows.map (fun r => r.record)).Nodup →
        ∀ r ∈ rows, completeFeat r cols = none →
          r.record ∉ (kmeans_clusters fit rows cols 4).rec_ids) := by
  by_cases hlen : ((rows.filterMap (fun r =>
      (completeFeat r cols).map (fun v => (v, r.record)))).map
        (fun p => p.1)).length < 2
  · have hres : kmeans_clusters fit rows cols 4 = ⟨0, [], [], []⟩ := by
      unfold kmeans_clusters
      rw [if_pos hlen]
    rw [hres]
    refine ⟨fun id hid => absurd hid (List.not_mem_nil id), rfl, ?_⟩
    intro _ r _ _ hmem
    exact absurd hmem (List.not_mem_nil _)
  · have hks : (List.range' 2 (min 4 ((rows.filterMap (fun r =>
        (completeFeat r cols).map (fun v => (v, r.record)))).map
          (fun p => p.1)).length - 1)) ≠ [] := by
      have h2 : 2 ≤ ((rows.filterMap (fun r =>
          (completeFeat r cols).map (fun v => (v, r.record)))).map
            (fun p => p.1)).length := Nat.le_of_not_lt hlen
      have : 0 < min 4 ((rows.filterMap (fun r =>
          (completeFeat r cols).map (fun v => (v, r.record)))).map
            (fun p => p.1)).length - 1 := by omega
      intro hnil
      rw [← List.length_eq_zero, List.length_range'] at hnil
      omega
    obtain ⟨⟨bk, bm⟩, hsw⟩ := Option.isSome_iff_exists.mp
      (kmSweep_isSome fit _ _ hks)
    have hres : kmeans_clusters fit rows cols 4
        = ⟨bk, bm.labels,
           (rows.filterMap (fun r =>
             (completeFeat r cols).map (fun v => (v, r.record)))).map
               (fun p => p.2),
           bm.centroids⟩ := by
      unfold kmeans_clusters
      rw [if_neg hlen, hsw]
    obtain ⟨k2, hk2⟩ := kmSweep_model fit _ _ none (Or.inl rfl) (bk, bm) hsw
    rw [hres]
    refine ⟨?_, ?_, ?_⟩
    · intro id hid
      rw [kmeans_pairs_snd] at hid
      rcases List.mem_map.mp hid with ⟨r, hr, hrec⟩
      exact ⟨r, (List.mem_filter.mp hr).1, (List.mem_filter.mp hr).2, hrec⟩
    · have hk2b : bm = fit k2 ((rows.filterMap (fun r =>
          (completeFeat r cols).map (fun v => (v, r.record)))).map
            (fun p => p.1)) := hk2
      show bm.labels.length = ((rows.filterMap (fun r =>
          (completeFeat r cols).map (fun v => (v, r.record)))).map
            (fun p => p.2)).length
      rw [hk2b, hfit, List.length_map, List.length_map]
    · intro hnd r hr hnone hmem
      rw [kmeans_pairs_snd] at hmem
      rcases List.mem_map.mp hmem with ⟨r2, hr2, hrec⟩
      have hr2rows : r2 ∈ rows := (List.mem_filter.mp hr2).1
      have heq : r2 = r := List.inj_on_of_nodup_map hnd hr2rows hr hrec
      have hsome := (List.mem_filter.mp hr2).2
      rw [heq, hnone] at hsome
      cases hsome

/-- Witness for `c6_clustering` at a concrete fit function and input
(one complete and one incomplete row). -/
theorem c6_clustering_witness :
    (∀ id ∈ (kmeans_clusters
        (fun _ X => ⟨X.map (fun _ => 0), [], 0⟩)
        [⟨1, [("F", Val.num 3)]⟩, ⟨2, [("F", Val.null)]⟩] ["F"] 4).rec_ids,
      ∃ r ∈ [⟨1, [("F", Val.num 3)]⟩, ⟨2, [("F", Val.null)]⟩],
        (completeFeat r ["F"]).isSome = true ∧ r.record = id)
    ∧ (kmeans_clusters (fun _ X => ⟨X.map (fun _ => 0), [], 0⟩)
        [⟨1, [("F", Val.num 3)]⟩, ⟨2, [("F", Val.null)]⟩] ["F"] 4).labels.length
      = (kmeans_clusters (fun _ X => ⟨X.map (fun _ => 0), [], 0⟩)
        [⟨1, [("F", Val.num 3)]⟩, ⟨2, [("F", Val.null)]⟩] ["F"] 4).rec_ids.length :=
  ⟨(c6_clustering (fun _ X => ⟨X.map (fun _ => 0), [], 0⟩)
      (fun _ _ => by simp) _ _).1,
   (c6_clustering (fun _ X => ⟨X.map (fun _ => 0), [], 0⟩)
      (fun _ _ => by simp) _ _).2.1⟩

/-- A `None`/`''` value is never a bad value. -/
theorem not_isBad_of_empty (v : Val) (he : isEmptyVal v = true) :
    ¬ isBad v := fun hb => by rw [hb.1] at he; cases he

/-- A value that parses is never a bad value. -/
theorem not_isBad_of_parses (v : Val) (q : ℚ) (hp : pyFloat v = some q) :
    ¬ isBad v := fun hb => by rw [hb.2] at hp; cases hp

/-- The inner validator loop succeeds exactly when no base column of the
row holds a bad value. -/
theorem checkRowCols_ok_iff (bs : List String) (r : Row) (idx : ℕ) :
    checkRowCols bs r idx = Except.ok () ↔
      ∀ b ∈ bs, ¬ isBad (r.getv b) := by
  induction bs with
  | nil => simp [checkRowCols]
  | cons b bs ih =>
    simp only [checkRowCols]
    by_cases he : isEmptyVal (r.getv b) = true
    · rw [if_pos he, ih]
      constructor
      · intro h x hx
        rcases List.mem_cons.mp hx with rfl | hx2
        · exact not_isBad_of_empty _ he
        · exact h x hx2
      · intro h x hx
        exact h x (List.mem_cons_of_mem b hx)
    · rw [if_neg he]
      cases hp : pyFloat (r.getv b) with
      | some q =>
        rw [ih]
        constructor
        · intro h x hx
          rcases List.mem_cons.mp hx with rfl | hx2
          · exact not_isBad_of_parses _ q hp
          · exact h x hx2
        · intro h x hx
          exact h x (List.mem_cons_of_mem b hx)
      | none =>
        constructor
        · intro h
          cases h
        · intro h
          exact absurd ⟨Bool.not_eq_true _ ▸ he, hp⟩ (h b (List.mem_cons_self b bs))

/-- Splitting off a clean head from a first-bad-column decomposition. -/
theorem split_cons_iff (r : Row) (b c : String) (bs : List String)
    (hb : ¬ isBad (r.getv b)) (hc : isBad (r.getv c)) :
    (∃ pre suf, b :: bs = pre ++ c :: suf
        ∧ ∀ x ∈ pre, ¬ isBad (r.getv x)) ↔
    (∃ pre suf, bs = pre ++ c :: suf ∧ ∀ x ∈ pre, ¬ isBad (r.getv x)) := by
  constructor
  · rintro ⟨pre, suf, heq, hclean⟩
    cases pre with
    | nil =>
      rw [List.nil_append] at heq
      injection heq with h1 h2
      subst h1
      exact absurd hc hb
    | cons p pre2 =>
      rw [List.cons_append] at heq
      injection heq with h1 h2
      subst h1
      exact ⟨pre2, suf, h2, fun x hx => hclean x (List.mem_cons_of_mem _ hx)⟩
  · rintro ⟨pre, suf, heq, hclean⟩
    refine ⟨b :: pre, suf, by rw [heq, List.cons_append], ?_⟩
    intro x hx
    rcases List.mem_cons.mp hx with rfl | hx2
    · exact hb
    · exact hclean x hx2

/-- The inner validator loop raises `invalidNumeric c i` exactly when `i`
is the current row index and `c` is the first base column (in column
order) holding a bad value. -/
theorem checkRowCols_error_iff (bs : List String) (r : Row) (idx : ℕ)
    (c : String) (i : ℕ) :
    checkRowCols bs r idx = Except.error (Err.invalidNumeric c i) ↔
      i = idx ∧ isBad (r.getv c)
      ∧ ∃ pre suf, bs = pre ++ c :: suf
          ∧ ∀ x ∈ pre, ¬ isBad (r.getv x) := by
  induction bs with
  | nil =>
    simp only [checkRowCols]
    constructor
    · intro h
      cases h
    · rintro ⟨-, -, pre, suf, heq, -⟩
      exact absurd heq.symm (List.append_ne_nil_of_right_ne_nil pre
        (List.cons_ne_nil c suf))
  | cons b bs ih =>
    simp only [checkRowCols]
    by_cases he : isEmptyVal (r.getv b) = true
    · rw [if_pos he, ih]
      constructor
      · rintro ⟨hi, hc, hsplit⟩
        exact ⟨hi, hc,
          (split_cons_iff r b c bs (not_isBad_of_empty _ he) hc).mpr hsplit⟩
      · rintro ⟨hi, hc, hsplit⟩
        exact ⟨hi, hc,
          (split_cons_iff r b c bs (not_isBad_of_empty _ he) hc).mp hsplit⟩
    · rw [if_neg he]
      cases hp : pyFloat (r.getv b) with
      | some q =>
        rw [ih]
        constructor
        · rintro ⟨hi, hc, hsplit⟩
          exact ⟨hi, hc,
            (split_cons_iff r b c bs (not_isBad_of_parses _ q hp) hc).mpr
              hsplit⟩
        · rintro ⟨hi, hc, hsplit⟩
          exact ⟨hi, hc,
            (split_cons_iff r b c bs (not_isBad_of_parses _ q hp) hc).mp
              hsplit⟩
      | none =>
        constructor
        · intro h
          injection h with he2
          injection he2 with hcb hib
          subst hcb
          subst hib
          exact ⟨rfl, ⟨Bool.not_eq_true _ ▸ he, hp⟩,
            [], bs, rfl, fun x hx => absurd hx (List.not_mem_nil x)⟩
        · rintro ⟨hi, hc, pre, suf, heq, hclean⟩
          cases pre with
          | nil =>
            rw [List.nil_append] at heq
            injection heq with h1 h2
            subst h1
            subst hi
            rfl
          | cons p pre2 =>
            rw [List.cons_append] at heq
            injection heq with h1 h2
            subst h1
            exact absurd ⟨Bool.not_eq_true _ ▸ he, hp⟩
              (hclean b (List.mem_cons_self b pre2))

/-- The outer validator loop succeeds exactly when no row holds a bad
value in a base column. -/
theorem checkRows_ok_iff (rows : List Row) (idx : ℕ) :
    checkRows rows idx = Except.ok () ↔
      ∀ r ∈ rows, ∀ b ∈ BASE_NUMERIC, ¬ isBad (r.getv b) := by
  induction rows generalizing idx with
  | nil => simp [checkRows]
  | cons r rest ih =>
    simp only [checkRows]
    cases hc : checkRowCols BASE_NUMERIC r idx with
    | ok u =>
      cases u
      rw [ih (idx + 1)]
      have hr := (checkRowCols_ok_iff BASE_NUMERIC r idx).mp hc
      constructor
      · intro h x hx
        rcases List.mem_cons.mp hx with rfl | hx2
        · exact hr
        · exact h x hx2
      · intro h x hx
        exact h x (List.mem_cons_of_mem r hx)
    | error e =>
      constructor
      · intro h
        cases h
      · intro h
        have : checkRowCols BASE_NUMERIC r idx = Except.ok () :=
          (checkRowCols_ok_iff BASE_NUMERIC r idx).mpr
            (h r (List.mem_cons_self r rest))
        rw [this] at hc
        cases hc

/-- The outer validator loop raises `invalidNumeric c i` exactly when
row `i` (counting from `idx`) is the first row holding a bad base value
and `c` is the first bad base column of that row. -/
theorem checkRows_error_iff (rows : List Row) (idx : ℕ) (c : String)
    (i : ℕ) :
    checkRows rows idx = Except.error (Err.invalidNumeric c i) ↔
      ∃ k, k < rows.length ∧ i = idx + k
        ∧ (∀ j, j < k → ∀ b ∈ BASE_NUMERIC,
            ¬ isBad ((rows.getD j []).getv b))
        ∧ isBad ((rows.getD k []).getv c)
        ∧ ∃ pre suf, BASE_NUMERIC = pre ++ c :: suf
            ∧ ∀ b ∈ pre, ¬ isBad ((rows.getD k []).getv b) := by
  induction rows generalizing idx with
  | nil =>
    simp only [checkRows]
    constructor
    · intro h
      cases h
    · rintro ⟨k, hk, -⟩
      exact absurd hk (Nat.not_lt_zero k)
  | cons r rest ih =>
    simp only [checkRows]
    cases hc : checkRowCols BASE_NUMERIC r idx with
    | error e =>
      constructor
      · intro h
        injection h with he2
        subst he2
        obtain ⟨hi, hbad, hsplit⟩ :=
          (checkRowCols_error_iff BASE_NUMERIC r idx c i).mp hc
        exact ⟨0, Nat.succ_pos _, by omega,
          fun j hj => absurd hj (Nat.not_lt_zero j), hbad, hsplit⟩
      · rintro ⟨k, hk, hi, hprior, hbad, hsplit⟩
        cases k with
        | zero =>
          have : checkRowCols BASE_NUMERIC r idx
              = Except.error (Err.invalidNumeric c i) :=
            (checkRowCols_error_iff BASE_NUMERIC r idx c i).mpr
              ⟨by omega, hbad, hsplit⟩
          rw [this] at hc
          injection hc with he2
          rw [he2]
        | succ k2 =>
          have hclean : ∀ b ∈ BASE_NUMERIC, ¬ isBad (r.getv b) :=
            hprior 0 (Nat.succ_pos k2)
          have : checkRowCols BASE_NUMERIC r idx = Except.ok () :=
            (checkRowCols_ok_iff BASE_NUMERIC r idx).mpr hclean
          rw [this] at hc
          cases hc
    | ok u =>
      cases u
      rw [ih (idx + 1)]
      constructor
      · rintro ⟨k, hk, hi, hprior, hbad, hsplit⟩
        refine ⟨k + 1, Nat.succ_lt_succ hk, by omega, ?_, hbad, hsplit⟩
        intro j hj b hb
        cases j with
        | zero =>
          exact (checkRowCols_ok_iff BASE_NUMERIC r idx).mp hc b hb
        | succ j2 =>
          exact hprior j2 (by omega) b hb
      · rintro ⟨k, hk, hi, hprior, hbad, hsplit⟩
        cases k with
        | zero =>
          have : checkRowCols BASE_NUMERIC r idx
              = Except.error (Err.invalidNumeric c idx) :=
            (checkRowCols_error_iff BASE_NUMERIC r idx c idx).mpr
              ⟨rfl, hbad, hsplit⟩
          rw [this] at hc
          cases hc
        | succ k2 =>
          refine ⟨k2, Nat.lt_of_succ_lt_succ hk, by omega, ?_, hbad, hsplit⟩
          intro j hj b hb
          exact hprior (j + 1) (by omega) b hb

/-- C7: once the required-column check passes, validation raises exactly
when some row has a non-empty value in a base numeric column that does
not parse as a float; the raised error names the first such failure in
row-then-column scan order, with its base column and 1-based row index.
Bad values in non-base columns never cause failure (the equivalence only
mentions base columns). -/
theorem c7_numeric_validation (header : List String) (rows : List Row)
    (h1 : header ≠ []) (h2 : ∀ c ∈ REQUIRED_COLUMNS, c ∈ header) :
    ((∃ e, parse_and_validate header rows = Except.error e) ↔
      ∃ r ∈ rows, ∃ b ∈ BASE_NUMERIC, isBad (r.getv b))
    ∧ (∀ c i,
        parse_and_validate header rows
            = Except.error (Err.invalidNumeric c i) ↔
          ∃ k, k < rows.length ∧ i = 1 + k
            ∧ (∀ j, j < k → ∀ b ∈ BASE_NUMERIC,
                ¬ isBad ((rows.getD j []).getv b))
            ∧ isBad ((rows.getD k []).getv c)
            ∧ ∃ pre suf, BASE_NUMERIC = pre ++ c :: suf
                ∧ ∀ b ∈ pre, ¬ isBad ((rows.getD k []).getv b)) := by
  have hcond : ¬(header = [] ∨ ∃ c ∈ REQUIRED_COLUMNS, c ∉ header) := by
    push_neg
    exact ⟨h1, h2⟩
  have hpv : parse_and_validate header rows
      = match checkRows rows 1 with
        | Except.error e => Except.error e
        | Except.ok _ => Except.ok (buildSummary header rows) := by
    unfold parse_and_validate
    rw [if_neg hcond]
  constructor
  · rw [hpv]
    cases hc : checkRows rows 1 with
    | ok u =>
      cases u
      constructor
      · rintro ⟨e, he⟩
        cases he
      · intro h
        rcases h with ⟨r, hr, b, hb, hbad⟩
        exact absurd hbad ((checkRows_ok_iff rows 1).mp hc r hr b hb)
    | error e =>
      constructor
      · intro _
        by_contra hno
        push_neg at hno
        have : checkRows rows 1 = Except.ok () :=
          (checkRows_ok_iff rows 1).mpr hno
        rw [this] at hc
        cases hc
      · intro _
        exact ⟨e, rfl⟩
  · intro c i
    rw [hpv]
    cases hc : checkRows rows 1 with
    | ok u =>
      cases u
      constructor
      · intro h
        cases h
      · intro h
        have := (checkRows_error_iff rows 1 c i).mpr
          (by
            rcases h with ⟨k, hk, hi, hprior, hbad, hsplit⟩
            exact ⟨k, hk, hi, hprior, hbad, hsplit⟩)
        rw [hc] at this
        cases this
    | error e =>
      constructor
      · intro h
        injection h with he2
        subst he2
        exact (checkRows_error_iff rows 1 c i).mp hc
      · intro h
        have : checkRows rows 1 = Except.error (Err.invalidNumeric c i) :=
          (checkRows_error_iff rows 1 c i).mpr h
        rw [this] at hc
        rw [← hc]

/-- Witness for `c7_numeric_validation`: a two-row input whose second row
holds the unparseable `Pressure` value `abc`. -/
theorem c7_numeric_validation_witness :
    ((∃ e, parse_and_validate REQUIRED_COLUMNS
        ([[("Pressure", Val.num 3)],
          [("Pressure", Val.str "abc" none)]] : List Row)
          = Except.error e) ↔
      ∃ r ∈ ([[("Pressure", Val.num 3)],
              [("Pressure", Val.str "abc" none)]] : List Row),
        ∃ b ∈ BASE_NUMERIC, isBad (Row.getv r b)) :=
  (c7_numeric_validation REQUIRED_COLUMNS _ (by decide) (by decide)).1

/-- `sortAsc` sorts. -/
theorem sortAsc_sorted (l : List ℚ) :
    (sortAsc l).Sorted (fun a b => a ≤ b) :=
  List.sorted_insertionSort _ l

/-- `sortAsc` permutes. -/
theorem sortAsc_perm (l : List ℚ) : (sortAsc l).Perm l :=
  List.perm_insertionSort _ l

/-- Indexing a sorted list is monotone. -/
theorem sorted_getD_mono (arr : List ℚ)
    (hs : arr.Sorted (fun a b => a ≤ b)) {a b : ℕ} (hab : a ≤ b)
    (hb : b < arr.length) : arr.getD a 0 ≤ arr.getD b 0 := by
  have ha : a < arr.length := lt_of_le_of_lt hab hb
  rw [List.getD_eq_getElem _ _ ha, List.getD_eq_getElem _ _ hb]
  rcases Nat.eq_or_lt_of_le hab with rfl | hlt
  · exact le_refl _
  · exact List.pairwise_iff_getElem.mp hs a b ha hb hlt

/-- Linear interpolation over a sorted list is monotone in the virtual
index (within range). -/
theorem interpAt_mono (arr : List ℚ)
    (hs : arr.Sorted (fun a b => a ≤ b)) (p q : ℚ) (hp : 0 ≤ p)
    (hpq : p ≤ q) (hq : q ≤ (arr.length : ℚ) - 1) :
    interpAt arr p ≤ interpAt arr q := by
  have hq0 : 0 ≤ q := le_trans hp hpq
  have hn : 1 ≤ arr.length := by
    by_contra hcon
    have h0 : arr.length = 0 := by omega
    rw [h0] at hq
    norm_num at hq
    linarith
  unfold interpAt
  set i : ℕ := (⌊p⌋).toNat with hidef
  set j : ℕ := (⌊q⌋).toNat with hjdef
  have hifl : (i : ℚ) = (⌊p⌋ : ℚ) := by
    have h := Int.toNat_of_nonneg (Int.floor_nonneg.mpr hp)
    exact_mod_cast congrArg (fun z : ℤ => (z : ℚ)) h
  have hjfl : (j : ℚ) = (⌊q⌋ : ℚ) := by
    have h := Int.toNat_of_nonneg (Int.floor_nonneg.mpr hq0)
    exact_mod_cast congrArg (fun z : ℤ => (z : ℚ)) h
  have hip : (i : ℚ) ≤ p := by
    rw [hifl]
    exact Int.floor_le p
  have hip1 : p < (i : ℚ) + 1 := by
    rw [hifl]
    exact Int.lt_floor_add_one p
  have hjq : (j : ℚ) ≤ q := by
    rw [hjfl]
    exact Int.floor_le q
  have hjq1 : q < (j : ℚ) + 1 := by
    rw [hjfl]
    exact Int.lt_floor_add_one q
  have hij : i ≤ j := by
    rw [hidef, hjdef]
    exact Int.toNat_le_toNat (Int.floor_mono hpq)
  have hjn : j < arr.length := by
    have h1 : (j : ℚ) ≤ (arr.length : ℚ) - 1 := le_trans hjq hq
    have h2 : (j : ℚ) + 1 ≤ (arr.length : ℚ) := by linarith
    have h3 : j + 1 ≤ arr.length := by exact_mod_cast h2
    omega
  have hlo_hi_p : arr.getD i 0 ≤ arr.getD (i + 1) (arr.getD i 0) := by
    by_cases hlt : i + 1 < arr.length
    · rw [List.getD_eq_getElem _ _ hlt,
        List.getD_eq_getElem _ _ (by omega : i < arr.length)]
      exact List.pairwise_iff_getElem.mp hs i (i + 1) (by omega) hlt
        (by omega)
    · rw [List.getD_eq_default _ _ (Nat.le_of_not_lt hlt)]
  have hlo_hi_q : arr.getD j 0 ≤ arr.getD (j + 1) (arr.getD j 0) := by
    by_cases hlt : j + 1 < arr.length
    · rw [List.getD_eq_getElem _ _ hlt,
        List.getD_eq_getElem _ _ (by omega : j < arr.length)]
      exact List.pairwise_iff_getElem.mp hs j (j + 1) (by omega) hlt
        (by omega)
    · rw [List.getD_eq_default _ _ (Nat.le_of_not_lt hlt)]
  rcases Nat.eq_or_lt_of_le hij with heq | hlt
  · rw [heq]
    have hfact : (0 : ℚ)
        ≤ arr.getD (j + 1) (arr.getD j 0) - arr.getD j 0 := by
      linarith [hlo_hi_q]
    have hpq2 : p - (j : ℚ) ≤ q - (j : ℚ) := by linarith
    have hmul := mul_le_mul_of_nonneg_right hpq2 hfact
    linarith
  · have hin : i + 1 < arr.length := by omega
    have h1 : arr.getD i 0
        + (p - (i : ℚ))
          * (arr.getD (i + 1) (arr.getD i 0) - arr.getD i 0)
        ≤ arr.getD (i + 1) (arr.getD i 0) := by
      have hf1 : p - (i : ℚ) ≤ 1 := by linarith
      have hf0 : (0 : ℚ)
          ≤ arr.getD (i + 1) (arr.getD i 0) - arr.getD i 0 := by
        linarith [hlo_hi_p]
      have hmul := mul_le_mul_of_nonneg_right hf1 hf0
      linarith
    have h2 : arr.getD (i + 1) (arr.getD i 0) ≤ arr.getD j 0 := by
      have e1 : arr.getD (i + 1) (arr.getD i 0)
          = arr.getD (i + 1) (0 : ℚ) := by
        rw [List.getD_eq_getElem _ _ hin, List.getD_eq_getElem _ _ hin]
      rw [e1]
      exact sorted_getD_mono arr hs (by omega) hjn
    have h3 : arr.getD j 0 ≤ arr.getD j 0
        + (q - (j : ℚ))
          * (arr.getD (j + 1) (arr.getD j 0) - arr.getD j 0) := by
      have hf0 : (0 : ℚ) ≤ q - (j : ℚ) := by linarith
      have hg0 : (0 : ℚ)
          ≤ arr.getD (j + 1) (arr.getD j 0) - arr.getD j 0 := by
        linarith [hlo_hi_q]
      nlinarith
    linarith

/-- The 25th percentile of a sorted non-empty list is at most its 75th
percentile. -/
theorem percentile25_le_75 (arr : List ℚ)
    (hs : arr.Sorted (fun a b => a ≤ b)) (hn : 1 ≤ arr.length) :
    percentileLinear arr 25 ≤ percentileLinear arr 75 := by
  unfold percentileLinear
  have hn1 : (1 : ℚ) ≤ (arr.length : ℚ) := by exact_mod_cast hn
  have h0 : (0 : ℚ) ≤ (arr.length : ℚ) - 1 := by linarith
  apply interpAt_mono arr hs
  · exact div_nonneg (by linarith) (by norm_num)
  · have := mul_le_mul_of_nonneg_right (show (25 : ℚ) ≤ 75 by norm_num) h0
    linarith
  · linarith

/-- `_quartiles` on a non-empty list exposes the linearly interpolated
25th percentile as `q1`. -/
theorem _quartiles_q1 (values : List ℚ) (hne : values ≠ []) :
    (_quartiles values).q1 = percentileLinear (sortAsc values) 25 := by
  unfold _quartiles
  rw [if_neg hne]

/-- `_quartiles` on a non-empty list exposes the linearly interpolated
75th percentile as `q3`. -/
theorem _quartiles_q3 (values : List ℚ) (hne : values ≠ []) :
    (_quartiles values).q3 = percentileLinear (sortAsc values) 75 := by
  unfold _quartiles
  rw [if_neg hne]

/-- With at least 4 valid values the outlier bounds are ordered. -/
theorem out_lb_le_ub (rows : List Row) (col : String)
    (h4 : 4 ≤ (colValues rows col).length) :
    out_lb rows col ≤ out_ub rows col := by
  have hne : colValues rows col ≠ [] := by
    intro h
    rw [h] at h4
    simp at h4
  have hs := sortAsc_sorted (colValues rows col)
  have hlen : 1 ≤ (sortAsc (colValues rows col)).length := by
    rw [(sortAsc_perm _).length_eq]
    omega
  have hq := percentile25_le_75 _ hs hlen
  unfold out_lb out_ub IQR_MULTIPLIER
  rw [_quartiles_q1 _ hne, _quartiles_q3 _ hne]
  linarith

/-- On an outlier, the code's sort key `max(|v-lb|, |v-ub|)` is the
distance past the nearer bound shifted by the constant width `ub - lb`,
so both induce the same ordering. -/
theorem key_eq_distPast (lb ub v : ℚ) (hlbub : lb ≤ ub)
    (hv : v < lb ∨ v > ub) :
    max |v - lb| |v - ub| = distPast lb ub v + (ub - lb) := by
  rcases hv with h | h
  · rw [abs_of_neg (by linarith : v - lb < 0),
      abs_of_neg (by linarith : v - ub < 0),
      max_eq_right (by linarith : -(v - lb) ≤ -(v - ub))]
    unfold distPast
    rw [if_neg (by linarith : ¬ ub < v)]
    ring
  · rw [abs_of_pos (by linarith : 0 < v - lb),
      abs_of_pos (by linarith : 0 < v - ub),
      max_eq_left (by linarith : v - ub ≤ v - lb)]
    unfold distPast
    rw [if_pos h]
    ring

/-- Python `sorted(key, reverse=True)` sorts descending by key. -/
theorem pySortByDesc_sorted (key : ℚ → ℚ) (l : List ℚ) :
    (pySortByDesc key l).Sorted (fun a b => key b ≤ key a) := by
  haveI htot : IsTotal ℚ (fun a b => key b ≤ key a) :=
    ⟨fun a b => le_total (key b) (key a)⟩
  haveI htrans : IsTrans ℚ (fun a b => key b ≤ key a) :=
    ⟨fun a b c hab hbc => le_trans hbc hab⟩
  exact List.sorted_insertionSort _ l

/-- Python `sorted` permutes its input. -/
theorem pySortByDesc_perm (key : ℚ → ℚ) (l : List ℚ) :
    (pySortByDesc key l).Perm l :=
  List.perm_insertionSort _ l

/-- Every element of the sorted outlier list is outside the bounds. -/
theorem outlier_values_mem (rows : List Row) (col : String) :
    ∀ x ∈ outlier_values rows col,
      x < out_lb rows col ∨ x > out_ub rows col := by
  intro x hx
  have hx2 : x ∈ (colValues rows col).filter
      (fun v => decide (v < out_lb rows col ∨ v > out_ub rows col)) :=
    ((pySortByDesc_perm _ _).mem_iff).mp hx
  exact of_decide_eq_true (List.mem_filter.mp hx2).2

/-- The sorted outlier list is ordered by descending distance past the
nearer bound. -/
theorem outlier_values_pairwise (rows : List Row) (col : String)
    (h4 : 4 ≤ (colValues rows col).length) :
    (outlier_values rows col).Pairwise (fun a b =>
      distPast (out_lb rows col) (out_ub rows col) b
        ≤ distPast (out_lb rows col) (out_ub rows col) a) := by
  have hlbub := out_lb_le_ub rows col h4
  have hsorted := pySortByDesc_sorted
    (fun v => max |v - out_lb rows col| |v - out_ub rows col|)
    ((colValues rows col).filter
      (fun v => decide (v < out_lb rows col ∨ v > out_ub rows col)))
  refine List.Pairwise.imp_of_mem ?_ hsorted
  intro a b ha hb hk
  rw [key_eq_distPast _ _ b hlbub (outlier_values_mem rows col b hb),
    key_eq_distPast _ _ a hlbub (outlier_values_mem rows col a ha)] at hk
  linarith

/-- C2: for a column with at least 4 valid values the outlier report's
bounds are `lb = Q1 - 1.5*IQR` and `ub = Q3 + 1.5*IQR` with linearly
interpolated percentiles over the sorted values; the reported outlier
values are exactly the column's values outside the bounds (none inside
is ever reported), ordered by distance past the nearer bound with the
most extreme first, truncated to at most 8, with `count` the total
number of outliers. -/
theorem c2_outlier_report (rows : List Row) (col : String)
    (h4 : 4 ≤ (colValues rows col).length) :
    ((_compute_outliers_col rows col).lb
        = percentileLinear (sortAsc (colValues rows col)) 25
          - 3 / 2 * (percentileLinear (sortAsc (colValues rows col)) 75
              - percentileLinear (sortAsc (colValues rows col)) 25)
      ∧ (_compute_outliers_col rows col).ub
        = percentileLinear (sortAsc (colValues rows col)) 75
          + 3 / 2 * (percentileLinear (sortAsc (colValues rows col)) 75
              - percentileLinear (sortAsc (colValues rows col)) 25))
    ∧ (_compute_outliers_col rows col).count
        = ((colValues rows col).filter (fun v =>
            decide (v < (_compute_outliers_col rows col).lb
              ∨ v > (_compute_outliers_col rows col).ub))).length
    ∧ (∃ s : List ℚ,
        s.Perm ((colValues rows col).filter (fun v =>
          decide (v < (_compute_outliers_col rows col).lb
            ∨ v > (_compute_outliers_col rows col).ub)))
        ∧ s.Pairwise (fun a b =>
            distPast (_compute_outliers_col rows col).lb
                (_compute_outliers_col rows col).ub b
              ≤ distPast (_compute_outliers_col rows col).lb
                  (_compute_outliers_col rows col).ub a)
        ∧ (_compute_outliers_col rows col).values = s.take 8)
    ∧ (∀ v ∈ (_compute_outliers_col rows col).values,
        v < (_compute_outliers_col rows col).lb
          ∨ v > (_compute_outliers_col rows col).ub)
    ∧ (_compute_outliers_col rows col).values.length ≤ 8 := by
  have hne : colValues rows col ≠ [] := by
    intro h
    rw [h] at h4
    simp at h4
  have hrep : _compute_outliers_col rows col
      = ⟨out_lb rows col, out_ub rows col,
         (outlier_values rows col).take 8,
         (outlier_values rows col).length⟩ := by
    unfold _compute_outliers_col
    rw [if_neg (by omega)]
  rw [hrep]
  dsimp only
  refine ⟨⟨?_, ?_⟩, ?_, ?_, ?_, ?_⟩
  · unfold out_lb IQR_MULTIPLIER
    rw [_quartiles_q1 _ hne, _quartiles_q3 _ hne]
  · unfold out_ub IQR_MULTIPLIER
    rw [_quartiles_q1 _ hne, _quartiles_q3 _ hne]
  · exact (pySortByDesc_perm _ _).length_eq
  · exact ⟨outlier_values rows col, pySortByDesc_perm _ _,
      outlier_values_pairwise rows col h4, rfl⟩
  · intro v hv
    exact outlier_values_mem rows col v (List.mem_of_mem_take hv)
  · exact List.length_take_le 8 _

/-- Witness for `c2_outlier_report`: five values of which `100` is the
only outlier; the report keeps at most 8 values, all outside the
bounds. -/
theorem c2_outlier_report_witness :
    (∀ v ∈ (_compute_outliers_col
        ([[("F", Val.num 10)], [("F", Val.num 12)], [("F", Val.num 11)],
          [("F", Val.num 13)], [("F", Val.num 100)]] : List Row)
        "F").values,
      v < (_compute_outliers_col
        ([[("F", Val.num 10)], [("F", Val.num 12)], [("F", Val.num 11)],
          [("F", Val.num 13)], [("F", Val.num 100)]] : List Row)
        "F").lb
      ∨ v > (_compute_outliers_col
        ([[("F", Val.num 10)], [("F", Val.num 12)], [("F", Val.num 11)],
          [("F", Val.num 13)], [("F", Val.num 100)]] : List Row)
        "F").ub)
    ∧ (_compute_outliers_col
        ([[("F", Val.num 10)], [("F", Val.num 12)], [("F", Val.num 11)],
          [("F", Val.num 13)], [("F", Val.num 100)]] : List Row)
        "F").values.length ≤ 8 :=
  ⟨(c2_outlier_report _ "F" (by decide)).2.2.2.1,
   (c2_outlier_report
     ([[("F", Val.num 10)], [("F", Val.num 12)], [("F", Val.num 11)],
       [("F", Val.num 13)], [("F", Val.num 100)]] : List Row)
     "F" (by decide)).2.2.2.2⟩

end CEPV
